import Mathlib

/-!
Verification of the `specq` change-pipeline against its specification.

Shallow embedding of the Python sources under `src/specq/`:
  - `models.py`    : `Status`, `TaskItem`, `VoteResult`, `WorkItem`
  - `aggregator.py`: `aggregate_votes`
  - `config.py`    : `get_verification_strategy` and the risk-policy table
  - `db.py`        : the SQLite rows actually persisted by
                     `upsert_work_item` / `get_work_item` / `upsert_task` /
                     `get_tasks`
  - `scanner.py`   : `parse_tasks`
  - `scheduler.py` : `count_downstream`, `pick_next`
  - `dag.py`       : `update_blocked_ready`
  - `pipeline.py` / `cli.py` : the operations that touch `retry_count`
  - `providers/acp_agent.py` : the `ACPSubprocessAgent.run` read loop

Python dictionaries carrying string data (vote findings) are modelled as
association lists; Python `json.dumps`/`json.loads` on lists of strings are
mutually inverse, so the stored `deps` column is modelled structurally.
Machine integers are modelled as `Int`/`Nat` (Python integers are unbounded,
so no wrap-around is involved).
-/

namespace Specq

/-- `models.Status` — the eleven work-item states. -/
inductive Status where
  | pending
  | blocked
  | ready
  | compiling
  | running
  | verifying
  | needs_review
  | accepted
  | rejected
  | failed
  | skipped
deriving DecidableEq, Repr

/-- The `.value` string of a `Status` member (`Status(str, Enum)`). -/
def Status.value : Status → String
  | .pending => "pending"
  | .blocked => "blocked"
  | .ready => "ready"
  | .compiling => "compiling"
  | .running => "running"
  | .verifying => "verifying"
  | .needs_review => "needs_review"
  | .accepted => "accepted"
  | .rejected => "rejected"
  | .failed => "failed"
  | .skipped => "skipped"

/-- The `Status(raw)` enum constructor: `some` on a valid value string,
`none` where Python raises `ValueError`. -/
def Status.ofValue (s : String) : Option Status :=
  if s = "pending" then some .pending
  else if s = "blocked" then some .blocked
  else if s = "ready" then some .ready
  else if s = "compiling" then some .compiling
  else if s = "running" then some .running
  else if s = "verifying" then some .verifying
  else if s = "needs_review" then some .needs_review
  else if s = "accepted" then some .accepted
  else if s = "rejected" then some .rejected
  else if s = "failed" then some .failed
  else if s = "skipped" then some .skipped
  else none

/-- A finding dictionary (`dict` of string keys/values), as an association
list; `f.get(key)` is `List.lookup`. -/
abbrev Finding : Type := List (String × String)

/-- `models.VoteResult`.  `confidence` is a Python float used only as opaque
data by the code under verification; it is modelled as a rational. -/
structure VoteResult where
  voter : String
  verdict : String
  confidence : Rat
  findings : List Finding := []
  summary : String := ""
deriving DecidableEq, Repr

/-- `models.TaskItem`.  `duration_sec` (a float used as opaque data) is
modelled as a rational. -/
structure TaskItem where
  id : String
  title : String
  description : String
  status : Status := .pending
  files_changed : List String := []
  commit_hash : String := ""
  execution_output : String := ""
  turns_used : Nat := 0
  tokens_in : Nat := 0
  tokens_out : Nat := 0
  duration_sec : Rat := 0
deriving DecidableEq, Repr

/-- `models.WorkItem` with the defaults of the dataclass. -/
structure WorkItem where
  id : String
  change_dir : String
  title : String
  description : String
  deps : List String := []
  priority : Int := 0
  risk : String := "medium"
  compiler_provider : String := "anthropic"
  compiler_model : String := "claude-haiku-4-5"
  executor_type : String := ""
  executor_model : String := ""
  executor_max_turns : Nat := 0
  executor_tools : List String := []
  verification_strategy : String := ""
  voters : List Finding := []
  max_retries : Nat := 3
  max_duration_sec : Nat := 600
  status : Status := .pending
  tasks : List TaskItem := []
  retry_count : Nat := 0
  vote_results : List VoteResult := []
  compiled_brief : String := ""
  error_message : String := ""
  created_at : String := ""
  updated_at : String := ""
deriving DecidableEq, Repr

/-! ## `aggregator.py` -/

/-- Whether any finding carries `severity = "critical"`
(`f.get("severity") == "critical"`). -/
def hasCritical (findings : List Finding) : Bool :=
  findings.any (fun f => f.lookup "severity" == some "critical")

/-- `aggregator.aggregate_votes`.  The Python majority test
`pass_count > total / 2` uses float division; for list lengths the
comparison is exact and equals `2 * pass_count > total`. -/
def aggregate_votes (results : List VoteResult) (strategy : String)
    (risk : String) : String × List Finding :=
  if strategy = "skip" then ("approved", [])
  else
    let all_findings := results.flatMap (fun r => r.findings)
    let pass_count := (results.filter (fun r => r.verdict == "pass")).length
    let total := results.length
    if total = 0 then ("rejected", all_findings)
    else
      let has_critical := hasCritical all_findings
      let passed :=
        if strategy = "majority" then decide (2 * pass_count > total)
        else if strategy = "unanimous" then decide (pass_count = total)
        else decide (2 * pass_count > total)
      if !passed then ("rejected", all_findings)
      else if has_critical || risk == "high" then ("needs_review", all_findings)
      else ("approved", all_findings)

/-- The ordered decision rules of the spec (section 4.7), written from the
spec text, to be compared with `aggregate_votes`: skip approves with no
findings; zero voters reject; majority passes on strict majority, unanimous
on full agreement; a failed vote rejects; a passed vote escalates to review
on a critical finding or high risk, else approves. -/
def aggregateSpec (results : List VoteResult) (strategy : String)
    (risk : String) : String × List Finding :=
  let all := (results.map (fun r => r.findings)).flatten
  let passCount := results.countP (fun r => r.verdict == "pass")
  if strategy = "skip" then ("approved", [])
  else if results.length = 0 then ("rejected", all)
  else
    let votePasses : Bool :=
      if strategy = "unanimous" then passCount == results.length
      else decide (2 * passCount > results.length)
    if votePasses then
      if hasCritical all || risk == "high" then ("needs_review", all)
      else ("approved", all)
    else ("rejected", all)

/-! ## `config.py` -/

/-- A risk-policy entry: either a plain YAML string or a
`RiskStrategyConfig` dataclass carrying a `strategy` field. -/
inductive RiskEntry where
  | raw (s : String)
  | cfg (strategy : String)
deriving DecidableEq, Repr

/-- The Python idiom `x if isinstance(x, str) else x.strategy`. -/
def RiskEntry.strategyOf : RiskEntry → String
  | .raw s => s
  | .cfg s => s

/-- `config.RiskPolicyConfig` with its dataclass defaults. -/
structure RiskPolicyConfig where
  low : RiskEntry := .raw "skip"
  medium : RiskEntry := .cfg "majority"
  high : RiskEntry := .cfg "unanimous"
deriving DecidableEq, Repr

/-- `config.get_verification_strategy`.  The guard mirrors
`if work_item.verification_strategy and work_item.verification_strategy != "majority"`
(Python truthiness on strings: non-empty). -/
def get_verification_strategy (wi : WorkItem) (rp : RiskPolicyConfig) :
    String :=
  if wi.verification_strategy ≠ "" ∧ wi.verification_strategy ≠ "majority"
  then wi.verification_strategy
  else if wi.risk = "low" then rp.low.strategyOf
  else if wi.risk = "high" then rp.high.strategyOf
  else rp.medium.strategyOf

/-- The per-risk default of the config risk-policy table (spec wording):
low and high read their table entries, anything else reads medium. -/
def riskDefault (rp : RiskPolicyConfig) (risk : String) : String :=
  if risk = "low" then rp.low.strategyOf
  else if risk = "high" then rp.high.strategyOf
  else rp.medium.strategyOf

/-! ## `db.py`

Only the columns of the `work_items` / `tasks` tables are persisted.
`json.dumps` / `json.loads` are mutually inverse on lists of strings, so
the `deps` / `files_changed` TEXT columns are modelled structurally.  The
`status` column stores the `.value` string; reading converts it back with
the `Status(raw)` constructor (`Status.ofValue`). -/

/-- One row of the `work_items` table (schema in `db.py`). -/
structure WorkItemRow where
  id : String
  change_dir : String
  title : String
  description : String
  status : String
  risk : String
  priority : Int
  deps : List String
  retry_count : Nat
  max_retries : Nat
  compiled_brief : String
  error_message : String
  created_at : String
  updated_at : String
deriving DecidableEq, Repr

/-- One row of the `tasks` table (schema in `db.py`). -/
structure TaskRow where
  id : String
  work_item_id : String
  title : String
  description : String
  status : String
  files_changed : List String
  commit_hash : String
  execution_output : String
  turns_used : Nat
  tokens_in : Nat
  tokens_out : Nat
  duration_sec : Rat
  created_at : String
  updated_at : String
deriving DecidableEq, Repr

/-- The `created_at` the upsert writes into the dataclass:
`if not wi.created_at: wi.created_at = now`. -/
def wiCreatedAt (wi : WorkItem) (now : String) : String :=
  if wi.created_at = "" then now else wi.created_at

/-- The `work_items` row built from a `WorkItem` by `upsert_work_item`
(the VALUES tuple of the INSERT). -/
def workItemToRow (wi : WorkItem) (now : String) : WorkItemRow :=
  { id := wi.id
    change_dir := wi.change_dir
    title := wi.title
    description := wi.description
    status := wi.status.value
    risk := wi.risk
    priority := wi.priority
    deps := wi.deps
    retry_count := wi.retry_count
    max_retries := wi.max_retries
    compiled_brief := wi.compiled_brief
    error_message := wi.error_message
    created_at := wiCreatedAt wi now
    updated_at := now }

/-- `Database.upsert_work_item` on the `work_items` table (a list of rows
keyed by the `id` primary key).  `ON CONFLICT(id) DO UPDATE` overwrites
every column except `created_at`; a fresh id is inserted (appended). -/
def upsert_work_item (wi : WorkItem) (now : String)
    (tbl : List WorkItemRow) : List WorkItemRow :=
  let row := workItemToRow wi now
  if tbl.any (fun r => r.id == wi.id) then
    tbl.map (fun r => if r.id == wi.id
      then { row with created_at := r.created_at } else r)
  else
    tbl ++ [row]

/-- `Database._row_to_work_item`.  Columns that allow NULL are read through
`row[c] or ""`, the identity on the strings this model stores.  The
`Status(row["status"])` constructor raises on an unknown value, modelled
as `none`. -/
def row_to_work_item (r : WorkItemRow) : Option WorkItem :=
  (Status.ofValue r.status).map (fun st =>
    { id := r.id
      change_dir := r.change_dir
      title := r.title
      description := r.description
      deps := r.deps
      priority := r.priority
      risk := r.risk
      status := st
      retry_count := r.retry_count
      max_retries := r.max_retries
      compiled_brief := r.compiled_brief
      error_message := r.error_message
      created_at := r.created_at
      updated_at := r.updated_at })

/-- `Database.get_work_item`: `SELECT * FROM work_items WHERE id = ?`
then `_row_to_work_item`. -/
def get_work_item (tbl : List WorkItemRow) (work_item_id : String) :
    Option WorkItem :=
  (tbl.find? (fun r => r.id == work_item_id)).bind row_to_work_item

/-- The `tasks` row built from a `TaskItem` by `upsert_task`. -/
def taskToRow (work_item_id : String) (t : TaskItem) (now : String) :
    TaskRow :=
  { id := t.id
    work_item_id := work_item_id
    title := t.title
    description := t.description
    status := t.status.value
    files_changed := t.files_changed
    commit_hash := t.commit_hash
    execution_output := t.execution_output
    turns_used := t.turns_used
    tokens_in := t.tokens_in
    tokens_out := t.tokens_out
    duration_sec := t.duration_sec
    created_at := now
    updated_at := now }

/-- `Database.upsert_task` on the `tasks` table, keyed by the composite
primary key `(work_item_id, id)`. -/
def upsert_task (work_item_id : String) (t : TaskItem) (now : String)
    (tbl : List TaskRow) : List TaskRow :=
  let row := taskToRow work_item_id t now
  if tbl.any (fun r => r.work_item_id == work_item_id && r.id == t.id) then
    tbl.map (fun r =>
      if r.work_item_id == work_item_id && r.id == t.id
      then { row with created_at := r.created_at } else r)
  else
    tbl ++ [row]

/-- `Database._row_to_task`; `none` where `Status(...)` would raise. -/
def row_to_task (r : TaskRow) : Option TaskItem :=
  (Status.ofValue r.status).map (fun st =>
    { id := r.id
      title := r.title
      description := r.description
      status := st
      files_changed := r.files_changed
      commit_hash := r.commit_hash
      execution_output := r.execution_output
      turns_used := r.turns_used
      tokens_in := r.tokens_in
      tokens_out := r.tokens_out
      duration_sec := r.duration_sec })

/-- Row-by-row conversion of a task result set (`none` as soon as one
`Status(...)` raises). -/
def rowsToTasks : List TaskRow → Option (List TaskItem)
  | [] => some []
  | r :: rest =>
    match row_to_task r, rowsToTasks rest with
    | some t, some ts => some (t :: ts)
    | _, _ => none

/-- Lexicographic order on character sequences by code point.  UTF-8 is
code-point order preserving, so this is exactly SQLite's BINARY collation
(bytewise `memcmp`) on TEXT columns. -/
def charListLe : List Char → List Char → Bool
  | [], _ => true
  | _ :: _, [] => false
  | a :: as, b :: bs =>
    if a.toNat < b.toNat then true
    else if b.toNat < a.toNat then false
    else charListLe as bs

/-- String comparison under the BINARY collation. -/
def idLe (a b : String) : Bool := charListLe a.toList b.toList

/-- `charListLe` is total. -/
theorem charListLe_total : ∀ a b : List Char,
    charListLe a b = true ∨ charListLe b a = true := by
  intro a
  induction a with
  | nil => intro b; left; cases b <;> rfl
  | cons x xs ih =>
    intro b
    cases b with
    | nil => right; rfl
    | cons y ys =>
      by_cases h1 : x.toNat < y.toNat
      · left; simp [charListLe, h1]
      · by_cases h2 : y.toNat < x.toNat
        · right; simp [charListLe, h2]
        · rcases ih ys with h | h
          · left; simp [charListLe, h1, h2, h]
          · right; simp [charListLe, h1, h2, h]

/-- `charListLe` is transitive. -/
theorem charListLe_trans : ∀ a b c : List Char,
    charListLe a b = true → charListLe b c = true →
    charListLe a c = true := by
  intro a
  induction a with
  | nil => intro b c _ _; cases c <;> rfl
  | cons x xs ih =>
    intro b c hab hbc
    cases b with
    | nil => simp [charListLe] at hab
    | cons y ys =>
      cases c with
      | nil => simp [charListLe] at hbc
      | cons z zs =>
        simp only [charListLe] at hab hbc ⊢
        by_cases h1 : x.toNat < y.toNat <;>
          by_cases h2 : y.toNat < z.toNat <;>
          by_cases h3 : y.toNat < x.toNat <;>
          by_cases h4 : z.toNat < y.toNat <;>
          simp [h1, h2, h3, h4] at hab hbc ⊢ <;>
          first
          | omega
          | exact Or.inr ⟨by omega, ih ys zs hab hbc⟩

/-- The `ORDER BY id` comparison on task rows. -/
def taskRowLe (a b : TaskRow) : Prop := idLe a.id b.id = true

instance : DecidableRel taskRowLe :=
  fun _ _ => inferInstanceAs (Decidable (_ = true))

instance : IsTotal TaskRow taskRowLe :=
  ⟨fun a b => charListLe_total a.id.toList b.id.toList⟩

instance : IsTrans TaskRow taskRowLe :=
  ⟨fun _ _ _ hab hbc => charListLe_trans _ _ _ hab hbc⟩

/-- `Database.get_tasks`: `SELECT * FROM tasks WHERE work_item_id = ?
ORDER BY id`.  SQLite orders the TEXT `id` column by its default BINARY
collation — `String` order on the ASCII ids involved.  Rows of one change
have pairwise distinct ids (composite primary key), so any sorting
algorithm yields the result set SQLite would. -/
def get_tasks (tbl : List TaskRow) (work_item_id : String) :
    Option (List TaskItem) :=
  rowsToTasks (List.insertionSort taskRowLe
    (tbl.filter (fun r => r.work_item_id == work_item_id)))

/-! ## `scanner.py` -/

/-- ASCII whitespace as matched by Python `\s` (`[ \t\n\r\f\v]`). -/
def isPySpace (c : Char) : Bool :=
  c == ' ' || c == '\t' || c == '\n' || c == '\r' || c == '\x0b' || c == '\x0c'

/-- Python `str.splitlines` restricted to the `\n` / `\r\n` / `\r`
terminators: terminators are dropped and a trailing terminator produces no
trailing empty line. -/
def splitlinesGo : List Char → List Char → List (List Char)
  | [], acc => if acc.isEmpty then [] else [acc.reverse]
  | '\r' :: '\n' :: rest, acc => acc.reverse :: splitlinesGo rest []
  | '\n' :: rest, acc => acc.reverse :: splitlinesGo rest []
  | '\r' :: rest, acc => acc.reverse :: splitlinesGo rest []
  | c :: rest, acc => splitlinesGo rest (c :: acc)

/-- Python `content.splitlines()` as a list of line strings. -/
def pySplitlines (content : String) : List String :=
  (splitlinesGo content.toList []).map List.asString

/-- Python `str.strip()` (ASCII whitespace): drop leading and trailing
whitespace characters. -/
def pyStrip (s : String) : String :=
  (((s.toList.dropWhile isPySpace).reverse.dropWhile isPySpace).reverse
    ).asString

/-- Whether the five-character prefix is `task-`, case-insensitively
(the regex carries `re.IGNORECASE`). -/
def taskPrefixCI (run : List Char) : Bool :=
  (run.take 5).map Char.toLower == ['t', 'a', 's', 'k', '-']

/-- The colon index the backtracking regex engine settles on for
`(task-\S+):` followed by `\s*(.+)$`: the largest `k` with `run[k] = ':'`,
at least one `\S` between `task-` (five characters) and the colon
(`k ≥ 6`), and at least one character left on the line after the colon
(so that `(.+)` can match).  `run` is the maximal non-space run starting
at `task`, `tail` the rest of the line after it. -/
def lastValidColon (run tail : List Char) : Option Nat :=
  ((List.range run.length).filter (fun k =>
    decide (6 ≤ k) && (run.get? k == some ':') &&
      (decide (k + 1 < run.length) || !tail.isEmpty))).getLast?

/-- The match of `^##\s+(task-\S+):\s*(.+)$` (case-insensitive) against one
line, returning `(group(1), group(2).strip())` — the strip that
`parse_tasks` applies to the captured title.  The non-space run after the
mandatory whitespace is cut at the colon chosen by `lastValidColon`; the
title is everything after that colon, trimmed (Python `strip`, which
absorbs whatever whitespace `\s*` did not). -/
def matchTaskHeading (line : String) : Option (String × String) :=
  match line.toList with
  | '#' :: '#' :: rest =>
    if (rest.takeWhile isPySpace).isEmpty then none
    else
      let afterWs := rest.dropWhile isPySpace
      let run := afterWs.takeWhile (fun c => !isPySpace c)
      let tail := afterWs.drop run.length
      if taskPrefixCI run then
        match lastValidColon run tail with
        | some k =>
          some ((run.take k).asString,
            pyStrip ((run.drop (k + 1)) ++ tail).asString)
        | none => none
      else none
  | _ => none

/-- Finish the task being accumulated (`_flush` inside `parse_tasks`):
description is the joined body lines, stripped. -/
def flushTask (cur : Option (String × String)) (curLines : List String) :
    List TaskItem :=
  match cur with
  | none => []
  | some (cid, ctitle) =>
    [{ id := cid, title := ctitle,
       description := pyStrip (String.intercalate "\n" curLines) }]

/-- The line loop of `scanner.parse_tasks`: a heading flushes the current
task and opens a new one; other lines accumulate once a task is open. -/
def parseTasksGo : List String → Option (String × String) → List String →
    List TaskItem
  | [], cur, curLines => flushTask cur curLines
  | line :: rest, cur, curLines =>
    match matchTaskHeading line with
    | some (tid, ttl) =>
      flushTask cur curLines ++ parseTasksGo rest (some (tid, ttl)) []
    | none =>
      match cur with
      | none => parseTasksGo rest none curLines
      | some c => parseTasksGo rest (some c) (curLines ++ [line])

/-- `scanner.parse_tasks`. -/
def parse_tasks (content : String) : List TaskItem :=
  parseTasksGo (pySplitlines content) none []

/-- The task ids in the order their `## task-…:` headings appear in the
file — the reference order for the order-preservation statement. -/
def taskHeadingIds (content : String) : List String :=
  (pySplitlines content).filterMap (fun l => (matchTaskHeading l).map (·.1))

/-! ## `scheduler.py` -/

/-- `_RISK_ORDER.get(i.risk, 1)`: low 0, medium 1, high 2, default 1. -/
def riskOrder (risk : String) : Nat :=
  if risk = "low" then 0
  else if risk = "medium" then 1
  else if risk = "high" then 2
  else 1

/-- The direct-dependents adjacency built by `count_downstream`
(`item_id → set of ids of items whose deps contain it`); Python's `set` of
ids is modelled by deduplication, and a missing key yields the empty set. -/
def directDependents (items : List WorkItem) (x : String) : List String :=
  ((items.filter (fun i => i.deps.contains x)).map (fun i => i.id)).dedup

/-- The worklist loop of `count_downstream` (`while stack: pop; if seen,
skip; else mark visited and push its dependents`).  The Python loop always
terminates because `visited` only grows inside a finite id universe; the
explicit fuel makes the same loop structurally recursive, and
`count_downstream` supplies fuel exceeding the loop's step count.  Which
end of the worklist is popped does not affect the visited set. -/
def dfsReach (adj : String → List String) :
    Nat → List String → List String → List String
  | 0, _, visited => visited
  | _ + 1, [], visited => visited
  | fuel + 1, n :: stack, visited =>
    if n ∈ visited then dfsReach adj fuel stack visited
    else dfsReach adj fuel (stack ++ adj n) (n :: visited)

/-- Fuel bound: with `n` distinct ids, every loop step strictly decreases
`stack.length + (n - visited.length) * (n + 1)`, which starts below
`n + n * (n + 1)`. -/
def dfsFuel (items : List WorkItem) : Nat :=
  let n := ((items.map (fun i => i.id)).dedup).length
  n + n * (n + 1) + 1

/-- The visited set computed by `scheduler.count_downstream` for one item. -/
def downstreamList (item : WorkItem) (items : List WorkItem) :
    List String :=
  dfsReach (directDependents items) (dfsFuel items)
    (directDependents items item.id) []

/-- `scheduler.count_downstream`: `len(visited)`. -/
def count_downstream (item : WorkItem) (items : List WorkItem) : Nat :=
  (downstreamList item items).length

/-- The sort key of `pick_next`:
`(-count_downstream(i, items), -i.priority, _RISK_ORDER.get(i.risk, 1))`. -/
def pickKey (items : List WorkItem) (i : WorkItem) : Int × Int × Nat :=
  (-(count_downstream i items : Int), -i.priority, riskOrder i.risk)

/-- Lexicographic comparison of sort keys — how Python compares the
3-tuples produced by the sort key. -/
def keyLe (a b : Int × Int × Nat) : Bool :=
  decide (a.1 < b.1 ∨ (a.1 = b.1 ∧
    (a.2.1 < b.2.1 ∨ (a.2.1 = b.2.1 ∧ a.2.2 ≤ b.2.2))))

/-- The sort relation of `pick_next`'s `ready.sort(key=…)`. -/
def pickLe (items : List WorkItem) (a b : WorkItem) : Prop :=
  keyLe (pickKey items a) (pickKey items b) = true

instance (items : List WorkItem) : DecidableRel (pickLe items) :=
  fun _ _ => inferInstanceAs (Decidable (_ = true))

/-- `scheduler.pick_next`.  Python's `if target_id:` is string truthiness:
both `None` and the empty string fall through to the ready-sorting branch.
`list.sort(key=…)` + `ready[0]` is modelled by a stable sort + `head?`
(both return an element minimal under the key). -/
def pick_next (items : List WorkItem) (target_id : Option String) :
    Option WorkItem :=
  if (match target_id with | some t => t != "" | none => false) then
    items.find? (fun i =>
      (some i.id == target_id) && (i.status == Status.ready))
  else
    let ready := items.filter (fun i => i.status == Status.ready)
    if ready.isEmpty then none
    else (List.insertionSort (pickLe items) ready).head?

/-- One edge of the reverse dependency graph, as the spec describes it:
`x → y` when some item with id `y` lists `x` among its deps. -/
def dependsEdge (items : List WorkItem) (x y : String) : Prop :=
  ∃ j ∈ items, j.id = y ∧ x ∈ j.deps

/-! ## `dag.py` -/

/-- The ids of the accepted items
(`accepted_ids = {i.id for i in items if i.status == Status.ACCEPTED}`,
computed before the loop of `update_blocked_ready`). -/
def acceptedIds (items : List WorkItem) : List String :=
  (items.filter (fun i => i.status == Status.accepted)).map (fun i => i.id)

/-- One iteration of the loop of `dag.update_blocked_ready`: a
PENDING/BLOCKED item becomes READY when every dep is among the accepted
ids, else BLOCKED; any other item is untouched. -/
def ubrStep (accepted_ids : List String) (item : WorkItem) : WorkItem :=
  if item.status == Status.pending || item.status == Status.blocked then
    if item.deps.all (fun dep => accepted_ids.contains dep) then
      { item with status := Status.ready }
    else
      { item with status := Status.blocked }
  else item

/-- `dag.update_blocked_ready`.  The accepted-id set is computed before
the loop; the Python in-place mutation is modelled as a map (the
precomputed set makes the iterations independent — the loop only ever
rewrites PENDING/BLOCKED statuses, never ACCEPTED ones). -/
def update_blocked_ready (items : List WorkItem) : List WorkItem :=
  items.map (ubrStep (acceptedIds items))

/-! ## `pipeline.py` / `cli.py` — operations on a change's stored state

The stored `(status, retry_count, max_retries)` of one change is mutated
only by the operations below; each constructor names its source site. -/

/-- The stored per-change state the retry invariant is about. -/
structure RetryState where
  status : Status
  retry_count : Nat
  max_retries : Nat
deriving DecidableEq, Repr

/-- Every operation of the pipeline loop or the CLI that writes the stored
status or retry count of one change. -/
inductive ChangeOp where
  /-- `run_pipeline` scan sync: a rescanned item carries forward the stored
  `status` and `retry_count` before being upserted back. -/
  | scanSync
  /-- `update_blocked_ready` recomputing a PENDING/BLOCKED item; `readyNow`
  says whether all deps were accepted. -/
  | reconcile (readyNow : Bool)
  /-- `run_pipeline` stage markers (`COMPILING`, `RUNNING`, `VERIFYING`). -/
  | markStage (s : Status)
  /-- `run_pipeline` decision dispatch on `approved`. -/
  | decideApproved
  /-- `run_pipeline` decision dispatch on `needs_review`. -/
  | decideNeedsReview
  /-- `run_pipeline` decision dispatch on `rejected`: increment-and-ready
  while the retry budget lasts, else fail. -/
  | decideRejected
  /-- `cli.accept`: NEEDS_REVIEW → ACCEPTED. -/
  | cliAccept
  /-- `cli.reject`: any status → FAILED. -/
  | cliReject
  /-- `cli.retry`: FAILED → READY (the retry count is not written). -/
  | cliRetry
  /-- `cli.skip`: any status → SKIPPED. -/
  | cliSkip
deriving DecidableEq, Repr

/-- The effect of one operation on the stored per-change state, read off
the corresponding source site. -/
def applyOp (op : ChangeOp) (s : RetryState) : RetryState :=
  match op with
  | .scanSync => s
  | .reconcile readyNow =>
    if s.status = .pending ∨ s.status = .blocked then
      { s with status := if readyNow then .ready else .blocked }
    else s
  | .markStage st => { s with status := st }
  | .decideApproved => { s with status := .accepted }
  | .decideNeedsReview => { s with status := .needs_review }
  | .decideRejected =>
    if s.retry_count < s.max_retries then
      { s with retry_count := s.retry_count + 1, status := .ready }
    else
      { s with status := .failed }
  | .cliAccept =>
    if s.status = .needs_review then { s with status := .accepted } else s
  | .cliReject => { s with status := .failed }
  | .cliRetry =>
    if s.status = .failed then { s with status := .ready } else s
  | .cliSkip => { s with status := .skipped }

/-- A sequence of operations applied in order. -/
def applyOps (ops : List ChangeOp) (s : RetryState) : RetryState :=
  ops.foldl (fun st op => applyOp op st) s

/-! ## `providers/acp_agent.py` -/

/-- `providers/code_agent.AgentRun` (`duration_sec` is wall-clock time,
irrelevant to every claim; the model reports it as zero). -/
structure AgentRun where
  success : Bool
  output : String
  turns : Nat := 0
  tokens_in : Nat := 0
  tokens_out : Nat := 0
  duration_sec : Rat := 0
deriving DecidableEq, Repr

/-- One parsed stdout line of the ACP read loop, classified the way the
loop's `method` / `id` dispatch classifies it.  `runResult` carries the
`(type, text)` content blocks of `result.output[].content[]` flattened in
order; `garbage` is a line `json.loads` rejects (skipped). -/
inductive AcpMsg where
  | permissionsRequested (permId : String)
  | textDelta (deltaType : String) (text : String)
  | turnDone
  | done
  | runResult (rid : Nat) (blocks : List (String × String))
  | runError (rid : Nat) (code : Int) (message : String)
  | otherMethod (m : String)
  | garbage

/-- The id of the `agents/run` request (the loop compares response ids
against it; `next_id()` issued 1 for `initialize`(…), 2 for the run). -/
def runReqId : Nat := 2

/-- The mutable state of the read loop. -/
structure LoopState where
  output_parts : List String
  turns : Nat
  done_received : Bool
deriving DecidableEq, Repr

/-- State at loop entry. -/
def initLoopState : LoopState :=
  { output_parts := [], turns := 0, done_received := false }

/-- How the read loop ended. -/
inductive LoopExit where
  /-- `readline` returned empty — EOF, subprocess exited. -/
  | eof (st : LoopState)
  /-- `agents/done` notification. -/
  | doneMsg (st : LoopState)
  /-- Response to `agents/run` carrying `result`. -/
  | resultBreak (st : LoopState)
  /-- Response to `agents/run` carrying `error` — the loop returns a
  failure `AgentRun` immediately. -/
  | errorReturn (st : LoopState) (code : Int) (message : String)
deriving DecidableEq, Repr

/-- The streaming read loop of `ACPSubprocessAgent.run` over the sequence
of stdout lines; the end of the list is EOF. -/
def readLoop : List AcpMsg → LoopState → LoopExit
  | [], st => .eof st
  | m :: rest, st =>
    match m with
    | .permissionsRequested _ => readLoop rest st
    | .textDelta deltaType text =>
      readLoop rest (if deltaType == "text"
        then { st with output_parts := st.output_parts ++ [text] } else st)
    | .turnDone => readLoop rest { st with turns := st.turns + 1 }
    | .done => .doneMsg { st with done_received := true }
    | .runResult rid blocks =>
      if rid == runReqId then
        let resultTexts := blocks.filterMap (fun b =>
          if b.1 == "text" then some b.2 else none)
        .resultBreak { st with output_parts :=
          if st.output_parts.isEmpty then resultTexts
          else st.output_parts }
      else readLoop rest st
    | .runError rid code message =>
      if rid == runReqId then .errorReturn st code message
      else readLoop rest st
    | .otherMethod _ => readLoop rest st
    | .garbage => readLoop rest st

/-- The failure message of the EOF-without-done path:
`"Subprocess exited with code <rc> without completing."` plus the partial
output when any was collected. -/
def eofFailureMsg (rc : Int) (output : String) : String :=
  "Subprocess exited with code " ++ toString rc ++ " without completing."
    ++ (if output == "" then "" else " Partial output: " ++ output)

/-- The code after the read loop of `ACPSubprocessAgent.run`: join the
parts; on EOF-before-done with a non-zero integer exit code report
failure, otherwise report success.  `returncode` is
`getattr(proc, "returncode", None)`. -/
def finishRun (ex : LoopExit) (returncode : Option Int) : AgentRun :=
  match ex with
  | .errorReturn st code message =>
    { success := false,
      output := "ACP error " ++ toString code ++ ": " ++ message,
      turns := st.turns }
  | .eof st | .doneMsg st | .resultBreak st =>
    let output := String.join st.output_parts
    if st.done_received = false then
      match returncode with
      | some rc =>
        if rc ≠ 0 then
          { success := false, output := eofFailureMsg rc output,
            turns := st.turns }
        else { success := true, output := output, turns := st.turns }
      | none => { success := true, output := output, turns := st.turns }
    else { success := true, output := output, turns := st.turns }

/-- `ACPSubprocessAgent.run` from the start of the streaming loop on:
process the stdout lines, then build the `AgentRun`. -/
def acpRun (msgs : List AcpMsg) (returncode : Option Int) : AgentRun :=
  finishRun (readLoop msgs initLoopState) returncode

/-- The text deltas of a message stream, in arrival order (only deltas
whose `type` is `"text"` are collected). -/
def textDeltas (msgs : List AcpMsg) : List String :=
  msgs.filterMap (fun m =>
    match m with
    | .textDelta deltaType text =>
      if deltaType == "text" then some text else none
    | _ => none)

/-! ## `voter.py` -/

/-- What awaiting one voter's `review(diff, proposal, rules, checks)`
does: produce a `VoteResult` or raise (the exception rendered as the
string Python would interpolate). -/
inductive VoterOutcome where
  | ok (r : VoteResult)
  | raises (exc : String)

/-- A voter as `run_voters` consumes it: a `name` and a `review`
capability. -/
structure Voter where
  name : String
  review : String → String → String → List String → VoterOutcome

/-- `voter.run_voters`.  The task group starts one task per voter; each
task appends exactly one result under a lock — a raising voter is
converted to an `error` record in the `except` branch.  The spec leaves
the append order unspecified; the model resolves it to input order. -/
def run_voters (voters : List Voter) (diff proposal project_rules : String)
    (checks : List String) : List VoteResult :=
  voters.map (fun v =>
    match v.review diff proposal project_rules checks with
    | .ok r => r
    | .raises exc =>
      { voter := v.name, verdict := "error", confidence := 0,
        findings := [], summary := "Voter error: " ++ exc })

/-- What a `WorkItem` looks like after `upsert_work_item` into a fresh id
followed by `get_work_item`: the persisted columns survive, the upsert
sets the timestamps, and every field without a column reverts to its
dataclass default. -/
def storedView (wi : WorkItem) (now : String) : WorkItem :=
  { id := wi.id, change_dir := wi.change_dir, title := wi.title,
    description := wi.description, deps := wi.deps, priority := wi.priority,
    risk := wi.risk, status := wi.status, retry_count := wi.retry_count,
    max_retries := wi.max_retries, compiled_brief := wi.compiled_brief,
    error_message := wi.error_message,
    created_at := wiCreatedAt wi now, updated_at := now }

/-! ## Concrete data used by witnesses and counterexamples -/

/-- A change carrying per-change overrides and a task — data the
`work_items` schema has no columns for. -/
def wiC3 : WorkItem :=
  { id := "003", change_dir := "changes/003", title := "t3",
    description := "d3", verification_strategy := "unanimous",
    executor_model := "opus",
    tasks := [{ id := "task-1", title := "one", description := "" }] }

/-- A tasks.md whose source order differs from id order. -/
def tasksContentCex : String :=
  "## task-3: C\ndesc\n## task-1: A\ndesc\n## task-2: B\ndesc\n"

/-- The `tasks` table after upserting the parsed tasks of
`tasksContentCex` for change `001`, in source order. -/
def taskTblCex : List TaskRow :=
  (parse_tasks tasksContentCex).foldl
    (fun tb t => upsert_task "001" t "T0" tb) []

/-- An accepted change with no deps. -/
def wiAcc : WorkItem :=
  { id := "a", change_dir := "changes/a", title := "A", description := "",
    status := Status.accepted }

/-- A pending change depending on `wiAcc`. -/
def wiPend : WorkItem :=
  { id := "b", change_dir := "changes/b", title := "B", description := "",
    deps := ["a"], status := Status.pending }

/-- A voter whose review succeeds. -/
def voterOkA : Voter :=
  { name := "openai/gpt-4o",
    review := fun _ _ _ _ =>
      .ok { voter := "openai/gpt-4o", verdict := "pass", confidence := 9/10 } }

/-- A voter whose review raises. -/
def voterBoom : Voter :=
  { name := "google/gemini", review := fun _ _ _ _ => .raises "boom" }

/-- A ready change, for the scheduler claims. -/
def wiReadyA : WorkItem :=
  { id := "a", change_dir := "changes/a", title := "A", description := "",
    status := Status.ready }

/-! # Theorems -/

/-- Helper for C1: the `majority` branch agrees with the spec rules. -/
theorem agg_majority (results : List VoteResult) (risk : String) :
    aggregate_votes results "majority" risk =
      aggregateSpec results "majority" risk := by
  cases results with
  | nil => rfl
  | cons r0 rest =>
    simp [aggregate_votes, aggregateSpec, List.flatMap_def,
      List.countP_eq_length_filter]
    by_cases hp : rest.length + 1 <
        2 * (List.filter (fun r => r.verdict == "pass") (r0 :: rest)).length
    · rw [if_neg (by omega), if_pos hp]
    · rw [if_pos (by omega), if_neg hp]

/-- Helper for C1: the `unanimous` branch agrees with the spec rules. -/
theorem agg_unanimous (results : List VoteResult) (risk : String) :
    aggregate_votes results "unanimous" risk =
      aggregateSpec results "unanimous" risk := by
  cases results with
  | nil => rfl
  | cons r0 rest =>
    simp [aggregate_votes, aggregateSpec, List.flatMap_def,
      List.countP_eq_length_filter]

/-- C1: `aggregate_votes(results, strategy, risk)` implements the ordered
decision rules: `skip` approves with no findings; with zero voters it
rejects with all findings; otherwise the vote passes iff the strict
majority (for `majority`) or all (for `unanimous`) of the verdicts are
exactly `"pass"` (so an `"error"` verdict counts as not-pass); a failing
vote rejects, a passing vote escalates to review on a critical finding or
high risk and approves otherwise, always carrying the concatenation of all
findings in input order. -/
theorem aggregate_votes_matches_rules (results : List VoteResult)
    (strategy risk : String)
    (h : strategy = "skip" ∨ strategy = "majority" ∨ strategy = "unanimous") :
    aggregate_votes results strategy risk =
      aggregateSpec results strategy risk := by
  rcases h with h | h | h <;> subst h
  · rfl
  · exact agg_majority results risk
  · exact agg_unanimous results risk

/-- C1 witness: the theorem applied at a concrete one-voter committee. -/
theorem aggregate_votes_matches_rules_witness :
    aggregate_votes [{ voter := "v", verdict := "pass", confidence := 1 }]
        "majority" "high" =
      aggregateSpec [{ voter := "v", verdict := "pass", confidence := 1 }]
        "majority" "high" :=
  aggregate_votes_matches_rules _ "majority" "high" (Or.inr (Or.inl rfl))

/-- C10: an unrecognized strategy string silently falls back to majority
voting — `aggregate_votes` with any strategy outside
`{skip, majority, unanimous}` returns exactly what strategy `"majority"`
returns, for every results list and risk. -/
theorem aggregate_votes_unknown_strategy (results : List VoteResult)
    (strategy risk : String) (h1 : strategy ≠ "skip")
    (h2 : strategy ≠ "majority") (h3 : strategy ≠ "unanimous") :
    aggregate_votes results strategy risk =
      aggregate_votes results "majority" risk := by
  simp only [aggregate_votes, if_neg h1, if_neg h2, if_neg h3, reduceIte,
    if_neg (by decide : ¬("majority" : String) = "skip")]

/-- C10 witness: the fallback at the concrete strategy `"borda"`. -/
theorem aggregate_votes_unknown_strategy_witness :
    aggregate_votes [{ voter := "v", verdict := "fail", confidence := 1 }]
        "borda" "low" =
      aggregate_votes [{ voter := "v", verdict := "fail", confidence := 1 }]
        "majority" "low" :=
  aggregate_votes_unknown_strategy _ "borda" "low"
    (by decide) (by decide) (by decide)

/-- C2 counterexample: a change with risk `low` that explicitly sets
`verification_strategy` to `"majority"` does not resolve to `"majority"`:
with the default risk-policy table it resolves to the low-risk default
`"skip"`, because the code only honours an override different from
`"majority"`. -/
theorem get_verification_strategy_majority_override_cex :
    get_verification_strategy
        { id := "001", change_dir := "changes/001", title := "t",
          description := "", risk := "low",
          verification_strategy := "majority" }
        {} = "skip" ∧ ("skip" : String) ≠ "majority" := by
  constructor
  · rfl
  · decide

/-- C2 amended: the strategy for a work item is the per-risk default from
the config risk-policy table, overridden by a per-change
`verification_strategy` only when that override is non-empty AND different
from `"majority"`; an explicit `"majority"` (or empty) override falls
through to the risk default. -/
theorem get_verification_strategy_spec (wi : WorkItem)
    (rp : RiskPolicyConfig) :
    (wi.verification_strategy ≠ "" → wi.verification_strategy ≠ "majority" →
      get_verification_strategy wi rp = wi.verification_strategy)
    ∧ ((wi.verification_strategy = "" ∨ wi.verification_strategy = "majority") →
      get_verification_strategy wi rp = riskDefault rp wi.risk) := by
  constructor
  · intro h1 h2
    simp [get_verification_strategy, h1, h2]
  · intro h
    have : ¬(wi.verification_strategy ≠ "" ∧
        wi.verification_strategy ≠ "majority") := by
      rcases h with h | h <;> simp [h]
    simp only [get_verification_strategy, if_neg this, riskDefault]

/-- C2 amended witness: a non-`majority` override on a low-risk change
wins over the table. -/
theorem get_verification_strategy_spec_witness :
    get_verification_strategy
        { id := "001", change_dir := "changes/001", title := "t",
          description := "", risk := "low",
          verification_strategy := "unanimous" }
        {} = "unanimous" :=
  (get_verification_strategy_spec _ {}).1 (by decide) (by decide)

/-- Helper for C6: membership in the accepted-id set is exactly having an
accepted item with that id. -/
theorem accepted_ids_mem (items : List WorkItem) (d : String) :
    (acceptedIds items).contains d = true ↔
      ∃ j ∈ items, j.id = d ∧ j.status = Status.accepted := by
  simp [acceptedIds, List.mem_map, List.mem_filter]
  constructor
  · rintro ⟨j, ⟨hj, hs⟩, hid⟩; exact ⟨j, hj, hid, hs⟩
  · rintro ⟨j, hj, hid, hs⟩; exact ⟨j, ⟨hj, hs⟩, hid⟩

/-- Helper for C6: one reconciliation step, characterized against the
spec-side "every dep has an accepted item" condition. -/
theorem ubrStep_spec (items : List WorkItem) (item : WorkItem) :
    ((item.status = Status.pending ∨ item.status = Status.blocked) →
      ((∀ d ∈ item.deps,
          ∃ j ∈ items, j.id = d ∧ j.status = Status.accepted) →
        ubrStep (acceptedIds items) item =
          { item with status := Status.ready }) ∧
      ((∃ d ∈ item.deps,
          ∀ j ∈ items, j.id = d → j.status ≠ Status.accepted) →
        ubrStep (acceptedIds items) item =
          { item with status := Status.blocked })) ∧
    (item.status ≠ Status.pending → item.status ≠ Status.blocked →
      ubrStep (acceptedIds items) item = item) := by
  refine ⟨fun hst => ⟨fun hall => ?_, fun hbad => ?_⟩, fun h1 h2 => ?_⟩
  · have hcond : (item.status == Status.pending ||
        item.status == Status.blocked) = true := by
      rcases hst with h | h <;> simp [h]
    rw [ubrStep, if_pos hcond, if_pos]
    rw [List.all_eq_true]
    intro d hd
    exact (accepted_ids_mem items d).mpr (hall d hd)
  · have hcond : (item.status == Status.pending ||
        item.status == Status.blocked) = true := by
      rcases hst with h | h <;> simp [h]
    obtain ⟨d, hd, hnone⟩ := hbad
    rw [ubrStep, if_pos hcond, if_neg]
    intro hall
    rw [List.all_eq_true] at hall
    obtain ⟨j, hj, hid, hs⟩ := (accepted_ids_mem items d).mp (hall d hd)
    exact hnone j hj hid hs
  · have hcond : ¬((item.status == Status.pending ||
        item.status == Status.blocked) = true) := by
      simp [h1, h2]
    rw [ubrStep, if_neg hcond]

/-- C6: status reconciliation sets every PENDING/BLOCKED item to READY iff
each of its deps has an accepted item (else to BLOCKED), and leaves every
item in any other status — running, verifying, compiling, needs_review and
the rest — entirely unchanged; in particular an item with a skipped (or
otherwise non-accepted) dependency is set to BLOCKED, never READY. -/
theorem update_blocked_ready_spec (items : List WorkItem) (k : Nat)
    (hk : k < items.length)
    (hk2 : k < (update_blocked_ready items).length) :
    (update_blocked_ready items).length = items.length ∧
    ((items[k].status = Status.pending ∨ items[k].status = Status.blocked →
      ((∀ d ∈ items[k].deps,
          ∃ j ∈ items, j.id = d ∧ j.status = Status.accepted) →
        (update_blocked_ready items)[k] =
          { items[k] with status := Status.ready }) ∧
      ((∃ d ∈ items[k].deps,
          ∀ j ∈ items, j.id = d → j.status ≠ Status.accepted) →
        (update_blocked_ready items)[k] =
          { items[k] with status := Status.blocked })) ∧
    (items[k].status ≠ Status.pending → items[k].status ≠ Status.blocked →
      (update_blocked_ready items)[k] = items[k])) := by
  have hget : (update_blocked_ready items)[k] =
      ubrStep (acceptedIds items) items[k] := by
    simp [update_blocked_ready, List.getElem_map]
  refine ⟨by simp [update_blocked_ready], ?_⟩
  rw [hget]
  exact ubrStep_spec items (items[k])

/-- C6 witness: a pending item whose single dep is accepted becomes ready. -/
theorem update_blocked_ready_spec_witness :
    (update_blocked_ready [wiAcc, wiPend]).get ⟨1, by decide⟩ =
      { wiPend with status := Status.ready } :=
  ((update_blocked_ready_spec [wiAcc, wiPend] 1 (by decide)
      (by decide)).2.1 (Or.inl rfl)).1 (by decide)

/-- Helper for C7: one operation never decreases `retry_count`, never
touches `max_retries`, and preserves the budget bound. -/
theorem applyOp_retry (op : ChangeOp) (s : RetryState) :
    s.retry_count ≤ (applyOp op s).retry_count ∧
    (applyOp op s).max_retries = s.max_retries ∧
    (s.retry_count ≤ s.max_retries →
      (applyOp op s).retry_count ≤ s.max_retries) := by
  cases op <;>
    (simp [applyOp]
     try (split <;> simp <;> omega))

/-- C7: across any sequence of pipeline-cycle and manual CLI operations,
a change's `retry_count` is monotonically non-decreasing and never exceeds
its `max_retries` (it is incremented only by a rejected decision while
`retry_count < max_retries`; the manual failed→ready retry does not write
it). -/
theorem retry_count_invariant (ops : List ChangeOp) (s : RetryState)
    (h : s.retry_count ≤ s.max_retries) :
    s.retry_count ≤ (applyOps ops s).retry_count ∧
    (applyOps ops s).retry_count ≤ (applyOps ops s).max_retries := by
  induction ops generalizing s with
  | nil => exact ⟨le_refl _, h⟩
  | cons op rest ih =>
    obtain ⟨h1, h2, h3⟩ := applyOp_retry op s
    have := ih (applyOp op s) (h2 ▸ h3 h)
    exact ⟨le_trans h1 this.1, this.2⟩

/-- C7 witness: four rejections against a budget of three, then a manual
retry. -/
theorem retry_count_invariant_witness :
    (0 : Nat) ≤ (applyOps [ChangeOp.decideRejected, ChangeOp.decideRejected,
        ChangeOp.decideRejected, ChangeOp.decideRejected, ChangeOp.cliRetry]
        { status := Status.verifying, retry_count := 0,
          max_retries := 3 }).retry_count ∧
    (applyOps [ChangeOp.decideRejected, ChangeOp.decideRejected,
        ChangeOp.decideRejected, ChangeOp.decideRejected, ChangeOp.cliRetry]
        { status := Status.verifying, retry_count := 0,
          max_retries := 3 }).retry_count ≤
      (applyOps [ChangeOp.decideRejected, ChangeOp.decideRejected,
        ChangeOp.decideRejected, ChangeOp.decideRejected, ChangeOp.cliRetry]
        { status := Status.verifying, retry_count := 0,
          max_retries := 3 }).max_retries :=
  retry_count_invariant
    [ChangeOp.decideRejected, ChangeOp.decideRejected, ChangeOp.decideRejected,
      ChangeOp.decideRejected, ChangeOp.cliRetry]
    { status := Status.verifying, retry_count := 0, max_retries := 3 }
    (by decide)

/-- C9: `run_voters` yields exactly one `VoteResult` per voter, in a
one-to-one positional correspondence: a raising voter contributes the
`error`/`Voter error: <exception>` record with confidence 0 and no
findings, a succeeding voter contributes its own result, and the result at
a position depends only on the voter at that position — replacing any
other voter cannot remove or alter it. -/
theorem run_voters_spec (voters : List Voter)
    (diff proposal project_rules : String) (checks : List String) :
    (run_voters voters diff proposal project_rules checks).length =
      voters.length ∧
    (∀ k, ∀ hk : k < voters.length,
      ∀ hk2 : k < (run_voters voters diff proposal project_rules checks).length,
      (∀ vr, (voters.get ⟨k, hk⟩).review diff proposal project_rules checks =
          VoterOutcome.ok vr →
        (run_voters voters diff proposal project_rules checks).get ⟨k, hk2⟩
          = vr) ∧
      (∀ exc, (voters.get ⟨k, hk⟩).review diff proposal project_rules checks =
          VoterOutcome.raises exc →
        (run_voters voters diff proposal project_rules checks).get ⟨k, hk2⟩ =
          { voter := (voters.get ⟨k, hk⟩).name, verdict := "error",
            confidence := 0, findings := [],
            summary := "Voter error: " ++ exc })) ∧
    (∀ voters' : List Voter, ∀ k, ∀ hk : k < voters.length,
      ∀ hk' : k < voters'.length,
      ∀ hk2 : k < (run_voters voters diff proposal project_rules checks).length,
      ∀ hk2' : k <
        (run_voters voters' diff proposal project_rules checks).length,
      voters.get ⟨k, hk⟩ = voters'.get ⟨k, hk'⟩ →
      (run_voters voters diff proposal project_rules checks).get ⟨k, hk2⟩ =
        (run_voters voters' diff proposal project_rules checks).get
          ⟨k, hk2'⟩) := by
  refine ⟨by simp [run_voters], ?_, ?_⟩
  · intro k hk hk2
    have hget : (run_voters voters diff proposal project_rules checks).get
        ⟨k, hk2⟩ =
        (fun v => match v.review diff proposal project_rules checks with
          | .ok r => r
          | .raises exc =>
            { voter := v.name, verdict := "error", confidence := 0,
              findings := [], summary := "Voter error: " ++ exc })
          (voters.get ⟨k, hk⟩) := by
      simp [run_voters, List.get_eq_getElem, List.getElem_map]
    constructor
    · intro vr hvr
      rw [hget]
      dsimp only
      rw [hvr]
    · intro exc hexc
      rw [hget]
      dsimp only
      rw [hexc]
  · intro voters' k hk hk' hk2 hk2' heq
    have hget1 : (run_voters voters diff proposal project_rules checks).get
        ⟨k, hk2⟩ =
        (fun v => match v.review diff proposal project_rules checks with
          | .ok r => r
          | .raises exc =>
            { voter := v.name, verdict := "error", confidence := 0,
              findings := [], summary := "Voter error: " ++ exc })
          (voters.get ⟨k, hk⟩) := by
      simp [run_voters, List.get_eq_getElem, List.getElem_map]
    have hget2 : (run_voters voters' diff proposal project_rules checks).get
        ⟨k, hk2'⟩ =
        (fun v => match v.review diff proposal project_rules checks with
          | .ok r => r
          | .raises exc =>
            { voter := v.name, verdict := "error", confidence := 0,
              findings := [], summary := "Voter error: " ++ exc })
          (voters'.get ⟨k, hk'⟩) := by
      simp [run_voters, List.get_eq_getElem, List.getElem_map]
    rw [hget1, hget2, heq]

/-- C9 witness: a raising voter next to a succeeding one contributes the
error record. -/
theorem run_voters_spec_witness :
    (run_voters [voterOkA, voterBoom] "d" "p" "rules" ["check"]).get
        ⟨1, by simp [run_voters]⟩ =
      { voter := "google/gemini", verdict := "error", confidence := 0,
        findings := [], summary := "Voter error: boom" } :=
  ((run_voters_spec [voterOkA, voterBoom] "d" "p" "rules" ["check"]).2.1
      1 (by simp) (by simp [run_voters])).2 "boom" rfl

/-- Helper for C8: a read loop that ends in EOF has collected exactly the
text deltas of the stream (appended to what it started with) and has not
seen `agents/done`. -/
theorem readLoop_eof_parts : ∀ (msgs : List AcpMsg) (st stf : LoopState),
    readLoop msgs st = .eof stf →
    stf.output_parts = st.output_parts ++ textDeltas msgs ∧
    stf.done_received = st.done_received := by
  intro msgs
  induction msgs with
  | nil =>
    intro st stf h
    simp only [readLoop] at h
    cases h
    simp [textDeltas]
  | cons m rest ih =>
    intro st stf h
    cases m with
    | permissionsRequested p =>
      have := ih _ _ h
      simpa [textDeltas] using this
    | textDelta dt tx =>
      simp only [readLoop] at h
      by_cases hdt : dt == "text"
      · rw [if_pos hdt] at h
        obtain ⟨h1, h2⟩ := ih _ _ h
        refine ⟨?_, by simpa using h2⟩
        rw [h1]
        have hdt2 : dt = "text" := by simpa using hdt
        simp [textDeltas, List.filterMap_cons, hdt2]
      · rw [if_neg hdt] at h
        obtain ⟨h1, h2⟩ := ih _ _ h
        refine ⟨?_, by simpa using h2⟩
        rw [h1]
        have hdt2 : ¬dt = "text" := by simpa using hdt
        simp [textDeltas, List.filterMap_cons, hdt2]
    | turnDone =>
      have := ih _ _ h
      simpa [textDeltas] using this
    | done =>
      simp only [readLoop] at h
      exact absurd h (by simp)
    | runResult rid blocks =>
      simp only [readLoop] at h
      by_cases hrid : rid == runReqId
      · rw [if_pos hrid] at h
        exact absurd h (by simp)
      · rw [if_neg hrid] at h
        have := ih _ _ h
        simpa [textDeltas] using this
    | runError rid code message =>
      simp only [readLoop] at h
      by_cases hrid : rid == runReqId
      · rw [if_pos hrid] at h
        exact absurd h (by simp)
      · rw [if_neg hrid] at h
        have := ih _ _ h
        simpa [textDeltas] using this
    | otherMethod mm =>
      have := ih _ _ h
      simpa [textDeltas] using this
    | garbage =>
      have := ih _ _ h
      simpa [textDeltas] using this

/-- C8: when the agent's stdout reaches EOF before any `agents/done`
notification, the run reports failure carrying the exit code iff the
child's exit code is a non-zero integer; otherwise (exit code zero or
unknown) it reports success whose output is the separator-free
concatenation of all received text deltas. -/
theorem acp_eof_spec (msgs : List AcpMsg) (rc : Option Int) (st : LoopState)
    (h : readLoop msgs initLoopState = .eof st) :
    ((∃ n, rc = some n ∧ n ≠ 0) →
      (acpRun msgs rc).success = false ∧
      ∀ n, rc = some n →
        (acpRun msgs rc).output =
          eofFailureMsg n (String.join (textDeltas msgs)))
    ∧ ((rc = none ∨ rc = some 0) →
      (acpRun msgs rc).success = true ∧
      (acpRun msgs rc).output = String.join (textDeltas msgs) ∧
      (acpRun msgs rc).turns = st.turns) := by
  obtain ⟨hparts, hdone⟩ := readLoop_eof_parts msgs initLoopState st h
  simp only [initLoopState, List.nil_append] at hparts hdone
  constructor
  · rintro ⟨n, rfl, hn⟩
    refine ⟨?_, ?_⟩
    · simp [acpRun, h, finishRun, hdone, hn, hparts]
    · intro n2 hn2
      cases hn2
      simp [acpRun, h, finishRun, hdone, hn, hparts]
  · rintro (rfl | rfl)
    · simp [acpRun, h, finishRun, hdone, hparts]
    · simp [acpRun, h, finishRun, hdone, hparts]

/-- C8 witness: the spec's own scenario — one clean exit after two text
deltas and no `agents/done` is a success whose output is the deltas
joined with no separator. -/
theorem acp_eof_spec_witness :
    (acpRun [AcpMsg.textDelta "text" "Hello",
        AcpMsg.textDelta "text" ", world!"] (some 0)).success = true ∧
    (acpRun [AcpMsg.textDelta "text" "Hello",
        AcpMsg.textDelta "text" ", world!"] (some 0)).output =
      "Hello, world!" := by
  have h := (acp_eof_spec
      [AcpMsg.textDelta "text" "Hello", AcpMsg.textDelta "text" ", world!"]
      (some 0)
      { output_parts := ["Hello", ", world!"], turns := 0,
        done_received := false }
      rfl).2 (Or.inr rfl)
  exact ⟨h.1, by rw [h.2.1]; rfl⟩

/-- C3 counterexample: the store round-trip does not preserve every field.
A work item with a per-change verification override, a per-change executor
model and one task comes back with the override and the model reset to
`""` and with no tasks — the `work_items` table has no columns for them. -/
theorem upsert_load_cex :
    (get_work_item (upsert_work_item wiC3 "2026-10-12T00:00:00+00:00" [])
        "003").map
        (fun w => (w.verification_strategy, w.executor_model,
          w.tasks.length)) =
      some ("", "", 0) ∧
    (wiC3.verification_strategy, wiC3.executor_model, wiC3.tasks.length) =
      ("unanimous", "opus", 1) :=
  ⟨rfl, rfl⟩

/-- Helper for C3: the `Status` string value round-trips through the enum
constructor. -/
theorem ofValue_value (s : Status) : Status.ofValue s.value = some s := by
  cases s <;> rfl

/-- C3 amended: storing a `WorkItem` under a fresh id and loading it back
returns the item restricted to the persisted columns — id, change_dir,
title, description, deps, priority, risk, status, retry_count,
max_retries, compiled_brief, error_message are preserved and
created_at/updated_at are as set by the upsert, while the fields without a
column (compiler/executor settings, executor_tools, verification_strategy,
voters, max_duration_sec, tasks, vote_results) come back as dataclass
defaults. -/
theorem upsert_load_roundtrip (wi : WorkItem) (now : String)
    (tbl : List WorkItemRow) (hfresh : ∀ r ∈ tbl, r.id ≠ wi.id) :
    get_work_item (upsert_work_item wi now tbl) wi.id =
      some (storedView wi now) := by
  have hany : tbl.any (fun r => r.id == wi.id) = false := by
    rw [List.any_eq_false]
    intro r hr
    simpa using hfresh r hr
  have hnone : tbl.find? (fun r => r.id == wi.id) = none := by
    rw [List.find?_eq_none]
    intro r hr
    simpa using hfresh r hr
  rw [get_work_item, upsert_work_item]
  simp only [hany, Bool.false_eq_true, if_false, List.find?_append, hnone,
    Option.none_or]
  simp only [List.find?_cons, workItemToRow, beq_self_eq_true, if_pos]
  simp [row_to_work_item, ofValue_value, storedView]

/-- C3 amended witness: a concrete item using every persisted column
round-trips to its stored view. -/
theorem upsert_load_roundtrip_witness :
    get_work_item
        (upsert_work_item
          { id := "001", change_dir := "changes/001", title := "t",
            description := "d", deps := ["000"], priority := 5,
            risk := "high", status := Status.ready, retry_count := 1,
            compiled_brief := "brief", error_message := "err" }
          "2026-10-12T00:00:00+00:00" [])
        "001" =
      some (storedView
        { id := "001", change_dir := "changes/001", title := "t",
          description := "d", deps := ["000"], priority := 5,
          risk := "high", status := Status.ready, retry_count := 1,
          compiled_brief := "brief", error_message := "err" }
        "2026-10-12T00:00:00+00:00") :=
  upsert_load_roundtrip _ _ [] (by simp)

/-- Helper for C4: the ids produced by the parse loop are the flushed
current id followed by the heading ids in line order. -/
theorem parseTasksGo_ids : ∀ (lines : List String)
    (cur : Option (String × String)) (curLines : List String),
    (parseTasksGo lines cur curLines).map (fun t => t.id) =
      (flushTask cur curLines).map (fun t => t.id) ++
        lines.filterMap (fun l => (matchTaskHeading l).map (·.1)) := by
  intro lines
  induction lines with
  | nil => intro cur curLines; simp [parseTasksGo]
  | cons line rest ih =>
    intro cur curLines
    simp only [parseTasksGo]
    cases hm : matchTaskHeading line with
    | some p =>
      cases p with
      | mk tid ttl =>
        simp [hm, List.map_append, ih, flushTask, List.filterMap_cons]
    | none =>
      cases cur with
      | none => simp [hm, ih, flushTask, List.filterMap_cons]
      | some c => simp [hm, ih, flushTask, List.filterMap_cons]

/-- Helper for C4: row-to-task conversion keeps the id. -/
theorem row_to_task_id {r : TaskRow} {t : TaskItem}
    (h : row_to_task r = some t) : t.id = r.id := by
  unfold row_to_task at h
  cases hst : Status.ofValue r.status with
  | none => rw [hst] at h; simp at h
  | some st =>
    rw [hst, Option.map_some'] at h
    cases h
    rfl

/-- Helper for C4: every produced task comes from some row. -/
theorem rowsToTasks_mem : ∀ (rows : List TaskRow) (out : List TaskItem),
    rowsToTasks rows = some out →
    ∀ t ∈ out, ∃ r ∈ rows, row_to_task r = some t := by
  intro rows
  induction rows with
  | nil =>
    intro out h t ht
    simp only [rowsToTasks] at h
    cases h
    simp at ht
  | cons r rest ih =>
    intro out h t ht
    simp only [rowsToTasks] at h
    cases hr : row_to_task r with
    | none => rw [hr] at h; simp at h
    | some t0 =>
      rw [hr] at h
      cases hrest : rowsToTasks rest with
      | none => rw [hrest] at h; simp at h
      | some ts =>
        rw [hrest] at h
        simp only at h
        cases h
        rcases List.mem_cons.mp ht with rfl | hts
        · exact ⟨r, List.mem_cons_self r rest, hr⟩
        · obtain ⟨r', hr', ht'⟩ := ih ts hrest t hts
          exact ⟨r', List.mem_cons_of_mem r hr', ht'⟩

/-- Helper for C4: a sorted result set converts to a task list sorted by
id. -/
theorem rowsToTasks_pairwise : ∀ (rows : List TaskRow)
    (out : List TaskItem),
    rowsToTasks rows = some out →
    List.Pairwise taskRowLe rows →
    List.Pairwise (fun a b : TaskItem => idLe a.id b.id = true) out := by
  intro rows
  induction rows with
  | nil =>
    intro out h _
    simp only [rowsToTasks] at h
    cases h
    exact List.Pairwise.nil
  | cons r rest ih =>
    intro out h hpw
    simp only [rowsToTasks] at h
    cases hr : row_to_task r with
    | none => rw [hr] at h; simp at h
    | some t0 =>
      rw [hr] at h
      cases hrest : rowsToTasks rest with
      | none => rw [hrest] at h; simp at h
      | some ts =>
        rw [hrest] at h
        simp only at h
        cases h
        rw [List.pairwise_cons] at hpw ⊢
        refine ⟨?_, ih ts hrest hpw.2⟩
        intro b hb
        obtain ⟨r', hr', hb'⟩ := rowsToTasks_mem rest ts hrest b hb
        show idLe _ _ = true
        rw [row_to_task_id hr, row_to_task_id hb']
        exact hpw.1 r' hr'

/-- C4 counterexample: with a tasks.md listing task-3, task-1, task-2 in
that source order, `parse_tasks` preserves that order but reading the
stored change back with `get_tasks` returns the tasks sorted by id — not
in the preserved source order the claim asserts. -/
theorem get_tasks_order_cex :
    (parse_tasks tasksContentCex).map (fun t => t.id) =
      ["task-3", "task-1", "task-2"] ∧
    (get_tasks taskTblCex "001").map (fun l => l.map (fun t => t.id)) =
      some ["task-1", "task-2", "task-3"] ∧
    (["task-1", "task-2", "task-3"] : List String) ≠
      ["task-3", "task-1", "task-2"] :=
  ⟨rfl, rfl, by decide⟩

/-- C4 amended: `parse_tasks` returns tasks in heading source order (its
id sequence is exactly the `## task-…:` headings of the file in order),
while `get_tasks` returns the stored tasks of a change ordered by id
(BINARY-collation ascending), not in source order.  The pipeline executes
`wi.tasks` from the scanner, which is in source order. -/
theorem tasks_order_spec :
    (∀ content, (parse_tasks content).map (fun t => t.id) =
      taskHeadingIds content) ∧
    (∀ (tbl : List TaskRow) (wid : String) (out : List TaskItem),
      get_tasks tbl wid = some out →
      List.Pairwise (fun a b : TaskItem => idLe a.id b.id = true) out) := by
  constructor
  · intro content
    rw [parse_tasks, taskHeadingIds, parseTasksGo_ids]
    simp [flushTask]
  · intro tbl wid out h
    rw [get_tasks] at h
    refine rowsToTasks_pairwise _ _ h ?_
    exact List.sorted_insertionSort taskRowLe
      (tbl.filter (fun r => r.work_item_id == wid))

/-- C4 amended witness: the id-sorted read-back of the concrete table is
indeed sorted by id. -/
theorem tasks_order_spec_witness :
    List.Pairwise (fun a b : TaskItem => idLe a.id b.id = true)
      [{ id := "task-1", title := "A", description := "desc" },
       { id := "task-2", title := "B", description := "desc" },
       { id := "task-3", title := "C", description := "desc" }] :=
  tasks_order_spec.2 taskTblCex "001"
    [{ id := "task-1", title := "A", description := "desc" },
     { id := "task-2", title := "B", description := "desc" },
     { id := "task-3", title := "C", description := "desc" }] (by decide)

/-- Helper for C5: the sort key comparison is transitive. -/
theorem keyLe_trans (a b c : Int × Int × Nat) (hab : keyLe a b = true)
    (hbc : keyLe b c = true) : keyLe a c = true := by
  obtain ⟨a1, a2, a3⟩ := a
  obtain ⟨b1, b2, b3⟩ := b
  obtain ⟨c1, c2, c3⟩ := c
  unfold keyLe at hab hbc ⊢
  simp only [decide_eq_true_eq] at hab hbc ⊢
  omega

/-- Helper for C5: the sort key comparison is total. -/
theorem keyLe_total (a b : Int × Int × Nat) :
    keyLe a b = true ∨ keyLe b a = true := by
  obtain ⟨a1, a2, a3⟩ := a
  obtain ⟨b1, b2, b3⟩ := b
  unfold keyLe
  simp only [decide_eq_true_eq]
  omega

/-- Helper for C5: the sort key comparison is reflexive. -/
theorem keyLe_refl (a : Int × Int × Nat) : keyLe a a = true := by
  unfold keyLe
  simp

/-- Helper for C5: correctness of the worklist loop of `count_downstream`.
Starting from a stack and visited list satisfying the loop invariants
(all inside the id universe `U`, visited nodes deduplicated and reachable,
stack nodes reachable, adjacency of visited nodes covered by visited or
stack), and given fuel at least the decreasing measure
`stack.length + (|U| - |visited|) * (|U| + 1)`, the final visited list is
duplicate-free, contains the initial visited and stack nodes, contains
only nodes reachable from `src`, and is closed under adjacency. -/
theorem dfsReach_go (adj : String → List String) (U : List String)
    (src : String)
    (hadjU : ∀ x, adj x ⊆ U)
    (hadjA : ∀ x, (adj x).length ≤ U.length) :
    ∀ (fuel : Nat) (stack visited : List String),
    stack ⊆ U → visited.Nodup → visited ⊆ U →
    stack.length + (U.length - visited.length) * (U.length + 1) ≤ fuel →
    (∀ v ∈ visited, Relation.TransGen (fun a b => b ∈ adj a) src v) →
    (∀ s ∈ stack, Relation.TransGen (fun a b => b ∈ adj a) src s) →
    (∀ v ∈ visited, ∀ w ∈ adj v, w ∈ visited ∨ w ∈ stack) →
    (dfsReach adj fuel stack visited).Nodup ∧
    (∀ v ∈ visited, v ∈ dfsReach adj fuel stack visited) ∧
    (∀ s ∈ stack, s ∈ dfsReach adj fuel stack visited) ∧
    (∀ v ∈ dfsReach adj fuel stack visited,
      Relation.TransGen (fun a b => b ∈ adj a) src v) ∧
    (∀ v ∈ dfsReach adj fuel stack visited, ∀ w ∈ adj v,
      w ∈ dfsReach adj fuel stack visited) := by
  intro fuel
  induction fuel with
  | zero =>
    intro stack visited hsU hnd hvU hfuel hvT hsT hclo
    have hstack : stack = [] := by
      have : stack.length = 0 := by omega
      exact List.eq_nil_of_length_eq_zero this
    subst hstack
    simp only [dfsReach]
    refine ⟨hnd, fun v hv => hv, by simp, hvT, ?_⟩
    intro v hv w hw
    rcases hclo v hv w hw with h | h
    · exact h
    · simp at h
  | succ fuel ih =>
    intro stack visited hsU hnd hvU hfuel hvT hsT hclo
    cases stack with
    | nil =>
      simp only [dfsReach]
      refine ⟨hnd, fun v hv => hv, by simp, hvT, ?_⟩
      intro v hv w hw
      rcases hclo v hv w hw with h | h
      · exact h
      · simp at h
    | cons n stack' =>
      simp only [dfsReach]
      by_cases hn : n ∈ visited
      · rw [if_pos hn]
        have hres := ih stack' visited
          (fun x hx => hsU (List.mem_cons_of_mem n hx)) hnd hvU
          (by simp at hfuel; omega)
          hvT
          (fun s hs => hsT s (List.mem_cons_of_mem n hs))
          (fun v hv w hw => by
            rcases hclo v hv w hw with h | h
            · exact Or.inl h
            · rcases List.mem_cons.mp h with rfl | h2
              · exact Or.inl hn
              · exact Or.inr h2)
        refine ⟨hres.1, hres.2.1, ?_, hres.2.2.2⟩
        intro s hs
        rcases List.mem_cons.mp hs with rfl | h2
        · exact hres.2.1 s hn
        · exact hres.2.2.1 s h2
      · rw [if_neg hn]
        have hnU : n ∈ U := hsU (List.mem_cons_self n stack')
        have hndnew : (n :: visited).Nodup := List.nodup_cons.mpr ⟨hn, hnd⟩
        have hvUnew : (n :: visited) ⊆ U := by
          intro x hx
          rcases List.mem_cons.mp hx with rfl | h2
          · exact hnU
          · exact hvU h2
        have hsUnew : stack' ++ adj n ⊆ U := by
          intro x hx
          rcases List.mem_append.mp hx with h2 | h2
          · exact hsU (List.mem_cons_of_mem n h2)
          · exact hadjU n h2
        have hvlt : visited.length < U.length := by
          have := (hndnew.subperm hvUnew).length_le
          simp at this
          omega
        have hfuel' : (stack' ++ adj n).length +
            (U.length - (n :: visited).length) * (U.length + 1) ≤ fuel := by
          have hA := hadjA n
          have hd : U.length - visited.length =
              (U.length - (visited.length + 1)) + 1 := by omega
          rw [hd] at hfuel
          have hmul : ((U.length - (visited.length + 1)) + 1) * (U.length + 1) =
              (U.length - (visited.length + 1)) * (U.length + 1) +
                (U.length + 1) := by ring
          rw [hmul] at hfuel
          simp only [List.length_append, List.length_cons] at hfuel ⊢
          omega
        have hres := ih (stack' ++ adj n) (n :: visited) hsUnew hndnew hvUnew
          hfuel'
          (fun v hv => by
            rcases List.mem_cons.mp hv with rfl | h2
            · exact hsT v (List.mem_cons_self v stack')
            · exact hvT v h2)
          (fun s hs => by
            rcases List.mem_append.mp hs with h2 | h2
            · exact hsT s (List.mem_cons_of_mem n h2)
            · exact Relation.TransGen.tail
                (hsT n (List.mem_cons_self n stack')) h2)
          (fun v hv w hw => by
            rcases List.mem_cons.mp hv with rfl | h2
            · exact Or.inr (List.mem_append_right stack' hw)
            · rcases hclo v h2 w hw with h3 | h3
              · exact Or.inl (List.mem_cons_of_mem n h3)
              · rcases List.mem_cons.mp h3 with rfl | h4
                · exact Or.inl (List.mem_cons_self w visited)
                · exact Or.inr (List.mem_append_left _ h4))
        refine ⟨hres.1, ?_, ?_, hres.2.2.2⟩
        · intro v hv
          exact hres.2.1 v (List.mem_cons_of_mem n hv)
        · intro s hs
          rcases List.mem_cons.mp hs with rfl | h2
          · exact hres.2.1 s (List.mem_cons_self s visited)
          · exact hres.2.2.1 s (List.mem_append_left _ h2)

/-- Helper for C5: membership in the built adjacency is exactly one edge
of the reverse dependency graph. -/
theorem mem_directDependents (items : List WorkItem) (a b : String) :
    b ∈ directDependents items a ↔ dependsEdge items a b := by
  simp only [directDependents, dependsEdge, List.mem_dedup, List.mem_map,
    List.mem_filter]
  constructor
  · rintro ⟨i, ⟨hi, hdep⟩, hid⟩
    exact ⟨i, hi, hid, by simpa using hdep⟩
  · rintro ⟨i, hi, hid, hdep⟩
    exact ⟨i, ⟨hi, by simpa using hdep⟩, hid⟩

/-- Helper for C5: the visited list of `count_downstream` enumerates,
without duplicates, exactly the ids transitively reachable from the item
in the reverse dependency graph. -/
theorem downstream_characterization (item : WorkItem)
    (items : List WorkItem) :
    (downstreamList item items).Nodup ∧
    ∀ b, b ∈ downstreamList item items ↔
      Relation.TransGen (dependsEdge items) item.id b := by
  have hadjU : ∀ x, directDependents items x ⊆
      (items.map (fun i => i.id)).dedup := by
    intro x b hb
    rw [List.mem_dedup]
    simp only [directDependents, List.mem_dedup, List.mem_map,
      List.mem_filter] at hb
    obtain ⟨i, ⟨hi, _⟩, hid⟩ := hb
    exact List.mem_map.mpr ⟨i, hi, hid⟩
  have hadjA : ∀ x, (directDependents items x).length ≤
      ((items.map (fun i => i.id)).dedup).length := by
    intro x
    exact ((List.nodup_dedup _).subperm (hadjU x)).length_le
  have hfuel0 : (directDependents items item.id).length +
      (((items.map (fun i => i.id)).dedup).length -
        ([] : List String).length) *
        (((items.map (fun i => i.id)).dedup).length + 1) ≤ dfsFuel items := by
    have := hadjA item.id
    simp only [dfsFuel, List.length_nil, Nat.sub_zero]
    omega
  have hres := dfsReach_go (directDependents items)
    ((items.map (fun i => i.id)).dedup) item.id hadjU hadjA
    (dfsFuel items) (directDependents items item.id) []
    (hadjU item.id) List.nodup_nil (by simp) hfuel0
    (by simp)
    (fun s hs => Relation.TransGen.single hs)
    (by simp)
  rw [downstreamList]
  refine ⟨hres.1, ?_⟩
  intro b
  constructor
  · intro hb
    exact Relation.TransGen.mono
      (fun x y h => (mem_directDependents items x y).mp h)
      (hres.2.2.2.1 b hb)
  · intro htg
    have htg' : Relation.TransGen
        (fun x y => y ∈ directDependents items x) item.id b :=
      Relation.TransGen.mono
        (fun x y h => (mem_directDependents items x y).mpr h) htg
    clear htg
    induction htg' with
    | single h => exact hres.2.2.1 _ h
    | tail ht hr ih2 => exact hres.2.2.2.2 _ ih2 _ hr

/-- C5 amended: with no `target_id` (or an empty one), `pick_next` returns
`None` iff no item is ready, and otherwise returns a ready item of the
list minimal under the lexicographic key
`(-unlock_count, -priority, risk_rank)`, where `unlock_count` counts the
items transitively reachable in the reverse dependency graph and
`risk_rank` maps low, medium, high to 0, 1, 2; with a NON-EMPTY
`target_id` it returns an item with that id and status ready iff one is
present, else `None`.  (An empty-string `target_id` is falsy in Python and
behaves like no target — see the counterexample.) -/
theorem pick_next_spec (items : List WorkItem) :
    (riskOrder "low" = 0 ∧ riskOrder "medium" = 1 ∧ riskOrder "high" = 2) ∧
    (∀ i : WorkItem, (downstreamList i items).Nodup ∧
      count_downstream i items = (downstreamList i items).length ∧
      (∀ b, b ∈ downstreamList i items ↔
        Relation.TransGen (dependsEdge items) i.id b)) ∧
    (pick_next items none = none ↔ ∀ i ∈ items, i.status ≠ Status.ready) ∧
    (∀ r, pick_next items none = some r →
      r ∈ items ∧ r.status = Status.ready ∧
      ∀ i ∈ items, i.status = Status.ready →
        keyLe (pickKey items r) (pickKey items i) = true) ∧
    (∀ t : String, t ≠ "" →
      ((∃ i ∈ items, i.id = t ∧ i.status = Status.ready) →
        ∃ r, pick_next items (some t) = some r ∧ r ∈ items ∧ r.id = t ∧
          r.status = Status.ready) ∧
      ((¬∃ i ∈ items, i.id = t ∧ i.status = Status.ready) →
        pick_next items (some t) = none)) := by
  haveI htot : IsTotal WorkItem (pickLe items) :=
    ⟨fun a b => keyLe_total _ _⟩
  haveI htrans : IsTrans WorkItem (pickLe items) :=
    ⟨fun a b c => keyLe_trans _ _ _⟩
  have hnone : pick_next items none =
      (if (items.filter (fun i => i.status == Status.ready)).isEmpty
        then none
        else (List.insertionSort (pickLe items)
          (items.filter (fun i => i.status == Status.ready))).head?) := rfl
  refine ⟨⟨rfl, rfl, rfl⟩, ?_, ?_, ?_, ?_⟩
  · intro i
    have h := downstream_characterization i items
    exact ⟨h.1, rfl, h.2⟩
  · rw [hnone]
    constructor
    · intro h i hi hstat
      by_cases hemp : (items.filter (fun i => i.status == Status.ready)).isEmpty
      · rw [List.isEmpty_iff] at hemp
        have : i ∈ items.filter (fun i => i.status == Status.ready) :=
          List.mem_filter.mpr ⟨hi, by simp [hstat]⟩
        rw [hemp] at this
        simp at this
      · rw [if_neg hemp] at h
        rw [List.head?_eq_none_iff] at h
        have hperm := List.perm_insertionSort (pickLe items)
          (items.filter (fun i => i.status == Status.ready))
        rw [h] at hperm
        rw [List.isEmpty_iff] at hemp
        exact hemp (List.perm_nil.mp hperm.symm)
    · intro h
      have hemp : (items.filter (fun i => i.status == Status.ready)) = [] := by
        rw [List.filter_eq_nil_iff]
        intro i hi
        simp only [beq_iff_eq]
        exact fun hc => h i hi hc
      rw [hemp]
      rfl
  · intro r hr
    rw [hnone] at hr
    by_cases hemp : (items.filter (fun i => i.status == Status.ready)).isEmpty
    · rw [if_pos hemp] at hr
      exact absurd hr (by simp)
    · rw [if_neg hemp] at hr
      have hsorted := List.sorted_insertionSort (pickLe items)
        (items.filter (fun i => i.status == Status.ready))
      have hperm := List.perm_insertionSort (pickLe items)
        (items.filter (fun i => i.status == Status.ready))
      cases hs : List.insertionSort (pickLe items)
          (items.filter (fun i => i.status == Status.ready)) with
      | nil => rw [hs] at hr; simp at hr
      | cons rh rest =>
        rw [hs] at hr
        simp only [List.head?_cons, Option.some_inj] at hr
        rw [hs] at hsorted hperm
        have hrsort : r ∈ rh :: rest := hr ▸ List.mem_cons_self rh rest
        have hrready : r ∈ items.filter (fun i => i.status == Status.ready) :=
          hperm.mem_iff.mp hrsort
        have hrf := List.mem_filter.mp hrready
        refine ⟨hrf.1, by simpa using hrf.2, ?_⟩
        intro i hi hstat
        have hiready : i ∈ items.filter (fun i => i.status == Status.ready) :=
          List.mem_filter.mpr ⟨hi, by simp [hstat]⟩
        have hisort : i ∈ rh :: rest := hperm.mem_iff.mpr hiready
        rcases List.mem_cons.mp hisort with h2 | h2
        · rw [h2, hr]
          exact keyLe_refl _
        · have hp := (List.pairwise_cons.mp hsorted).1 i h2
          rw [← hr]
          exact hp
  · intro t ht
    have htarget : pick_next items (some t) =
        items.find? (fun i =>
          (some i.id == some t) && (i.status == Status.ready)) := by
      simp only [pick_next]
      rw [if_pos]
      simp [ht]
    constructor
    · rintro ⟨i, hi, hid, hstat⟩
      have hsome : (items.find? (fun i =>
          (some i.id == some t) && (i.status == Status.ready))).isSome := by
        rw [List.find?_isSome]
        exact ⟨i, hi, by simp [hid, hstat]⟩
      obtain ⟨r, hrfind⟩ := Option.isSome_iff_exists.mp hsome
      have hp := List.find?_some hrfind
      simp only [Bool.and_eq_true, beq_iff_eq, Option.some_inj] at hp
      exact ⟨r, htarget ▸ hrfind, List.mem_of_find?_eq_some hrfind,
        hp.1, hp.2⟩
    · intro hnot
      rw [htarget, List.find?_eq_none]
      intro i hi hp
      simp only [Bool.and_eq_true, beq_iff_eq, Option.some_inj] at hp
      exact hnot ⟨i, hi, hp.1, hp.2⟩

/-- C5 counterexample: with `target_id` set to the empty string and a
ready item whose id is not `""`, `pick_next` returns that item — the
claim, which demands `None` whenever no item has the target id, fails at
this input because `if target_id:` treats `""` as absent. -/
theorem pick_next_empty_target_cex :
    pick_next [wiReadyA] (some "") = some wiReadyA ∧
    (∀ i ∈ [wiReadyA], i.id ≠ "") := by
  constructor
  · rfl
  · decide

/-- C5 amended witness: target selection at a concrete ready item. -/
theorem pick_next_spec_witness :
    ∃ r, pick_next [wiReadyA] (some "a") = some r ∧ r ∈ [wiReadyA] ∧
      r.id = "a" ∧ r.status = Status.ready :=
  ((pick_next_spec [wiReadyA]).2.2.2.2 "a" (by decide)).1
    ⟨wiReadyA, by decide, rfl, rfl⟩

end Specq
